import Mathlib

/-!
Shallow embedding of the reservation engine and reminder scheduler of
tomato378/discord_cafebook_public, translated from `src/bot3.py` (primary
variant cited by the claims) and, where identical, `src/bot/bot2.py`.

Conventions of the embedding:
* A sheet is `List (List String)`: the raw rows of the range `A:I`, row 1
  being the header row.  Cell values are the literal strings stored.
* Python exceptions that escape a function are modelled as `Option.none`
  (`ValueError` from `int(...)`/`split` inside `has_overlap`).
* Datetimes at minute precision are modelled as minutes on the fixed-offset
  (JST) civil timeline, computed by `date_minutes`.  Two minute-truncated
  aware datetimes have equal `strftime("%Y-%m-%d %H:%M")` strings exactly
  when they denote the same civil minute, so the scheduler's string
  comparison is embedded as equality of these minute counts.
-/

namespace Cafebook

/-- Python `str.split(sep)` for a one-character separator, over the
character list: splitting the empty string yields `[""]`. -/
def split_on_char (c : Char) : List Char → List (List Char)
  | [] => [[]]
  | a :: rest =>
    let r := split_on_char c rest
    if a = c then [] :: r
    else
      match r with
      | [] => [[a]]
      | g :: gs => (a :: g) :: gs

/-- Python `str.split(sep)` for a one-character separator. -/
def py_split (sep : Char) (s : String) : List String :=
  (split_on_char sep s.data).map String.mk

def digit_val (ch : Char) : Option Nat :=
  if '0' ≤ ch ∧ ch ≤ '9' then some (ch.toNat - '0'.toNat) else none

def digits_val_from (acc : Nat) : List Char → Option Nat
  | [] => some acc
  | ch :: rest =>
    match digit_val ch with
    | none => none
    | some d => digits_val_from (acc * 10 + d) rest

/-- Python `int(s)` on a non-negative decimal numeral, `none` for the
`ValueError` on anything else.  (`int` also tolerates surrounding
whitespace and an explicit sign; the engine's time and id cells are written
in normalized form, and such contents are treated as unparseable here.) -/
def py_int? (s : String) : Option Nat :=
  match s.data with
  | [] => none
  | _ => digits_val_from 0 s.data

/-- The whitespace set of Python `str.strip()` (ASCII part). -/
def is_space (c : Char) : Bool :=
  c = ' ' || c = '\t' || c = '\n' || c = '\r' || c = '\x0b' || c = '\x0c'

/-- Python `str.strip()`. -/
def py_strip (s : String) : String :=
  String.mk (((s.data.dropWhile is_space).reverse.dropWhile is_space).reverse)

def lower_char (c : Char) : Char :=
  if 'A' ≤ c ∧ c ≤ 'Z' then Char.ofNat (c.toNat + 32) else c

/-- Python `str.lower()` (ASCII part, all the stored flags need). -/
def py_lower (s : String) : String :=
  String.mk (s.data.map lower_char)

/-- `time_to_minutes` of src/bot3.py: split on ":", convert both parts with
`int`, return hours*60+minutes.  A `ValueError` (wrong number of parts or a
non-numeric part) is `none`. -/
def time_to_minutes (text : String) : Option Nat :=
  match py_split ':' text with
  | [h, m] =>
    match py_int? h, py_int? m with
    | some hv, some mv => some (hv * 60 + mv)
    | _, _ => none
  | _ => none

/-- `has_overlap` of src/bot3.py (and `overlaps` of src/bot/bot2.py, whose
lexicographic `datetime.time` comparison agrees with minutes-since-midnight):
parse the four times and test `max(sa, sb) < min(ea, eb)`. -/
def has_overlap (start_a end_a start_b end_b : String) : Option Bool :=
  match time_to_minutes start_a, time_to_minutes end_a,
        time_to_minutes start_b, time_to_minutes end_b with
  | some sa, some ea, some sb, some eb => some (decide (max sa sb < min ea eb))
  | _, _, _, _ => none

/-- A sheet: the raw rows of range `A:I`, row 1 being the header row. -/
abbrev Sheet := List (List String)

/-- `row + [""] * max(0, 9 - len(row))` followed by `[:9]` in `fetch_rows`. -/
def pad9 (row : List String) : List String :=
  (row ++ List.replicate (9 - row.length) "").take 9

/-- Python's `row[k]` on the (9-element) padded rows. -/
def cell (row : List String) (k : Nat) : String :=
  row.getD k ""

/-- The loop body of `fetch_rows`: `enumerate(rows, start=1)`, skipping
`idx == 1` (the header) and emitting `(idx, padded[:9])`. -/
def fetch_rows_from (idx : Nat) (rows : Sheet) : List (Nat × List String) :=
  match rows with
  | [] => []
  | row :: rest =>
    if idx = 1 then fetch_rows_from (idx + 1) rest
    else (idx, pad9 row) :: fetch_rows_from (idx + 1) rest

/-- `SheetClient.fetch_rows` of src/bot3.py (the loop of
`SheetOperations.fetch_rows` of src/bot/bot2.py is identical). -/
def fetch_rows (rows : Sheet) : List (Nat × List String) :=
  fetch_rows_from 1 rows

/-- The loop of `SheetClient.conflicting_seat_names`, running over the
result of `fetch_rows`; `none` models the `ValueError` escaping from
`has_overlap` on a malformed stored time. -/
def conflicts_from (day start_ end_ : String) :
    List (Nat × List String) → Option (List String)
  | [] => some []
  | (_, row) :: rest =>
    let row_day := cell row 2
    let row_start := cell row 3
    let row_end := cell row 4
    if row_day = "" ∨ row_start = "" ∨ row_end = "" then
      conflicts_from day start_ end_ rest
    else if row_day ≠ day then
      conflicts_from day start_ end_ rest
    else
      match has_overlap start_ end_ row_start row_end with
      | none => none
      | some true => (conflicts_from day start_ end_ rest).map (cell row 1 :: ·)
      | some false => conflicts_from day start_ end_ rest

/-- `SheetClient.conflicting_seat_names` of src/bot3.py: the seat names of
rows on the same date whose stored time range overlaps the requested one. -/
def conflicting_seat_names (rows : Sheet) (day start_ end_ : String) :
    Option (List String) :=
  conflicts_from day start_ end_ (fetch_rows rows)

/-- The 9-column row written by `SheetClient.append_reservation`. -/
def reservation_row (user_display channel_name day start_ end_ user_id
    timestamp : String) : List String :=
  [user_display, channel_name, day, start_, end_, user_id, timestamp, "[]", "FALSE"]

/-- `SheetClient.append_reservation`: the store appends the row after the
existing rows. -/
def append_reservation (rows : Sheet) (user_display channel_name day start_
    end_ user_id timestamp : String) : Sheet :=
  rows ++ [reservation_row user_display channel_name day start_ end_ user_id timestamp]

inductive ReserveResult
  | reserved
  | slotTaken
  | fetchError
deriving DecidableEq

/-- The Reserve flow of src/bot3.py for one requested seat, as the
back-to-back composition of `ReservationModal.on_submit`'s availability
check (`conflicting_seat_names`; a seat in the conflict set is never
offered, so picking it ends in `slotTaken` with no write) and
`ReservationSeatSelect.callback`'s `append_reservation`, under the spec's
single-writer assumption: no other write happens between the fetch used for
the check and the append.  `fetchError` models a `ValueError` raised while
checking conflicts, which aborts the interaction before any write. -/
def reserve (rows : Sheet) (user_display seat day start_ end_ user_id
    timestamp : String) : ReserveResult × Sheet :=
  match conflicting_seat_names rows day start_ end_ with
  | none => (ReserveResult.fetchError, rows)
  | some conflicts =>
    if seat ∈ conflicts then (ReserveResult.slotTaken, rows)
    else (ReserveResult.reserved,
      append_reservation rows user_display seat day start_ end_ user_id timestamp)

/-- No-double-booking invariant: no two distinct data rows with the same
seat name (column 1) and date (column 2) have overlapping stored
`[start, end)` ranges. -/
def NoDoubleBooking (rows : Sheet) : Prop :=
  ∀ p ∈ fetch_rows rows, ∀ q ∈ fetch_rows rows, p.1 ≠ q.1 →
    cell p.2 1 = cell q.2 1 → cell p.2 2 = cell q.2 2 →
    has_overlap (cell p.2 3) (cell p.2 4) (cell q.2 3) (cell q.2 4) ≠ some true

/-- Writing one cell of a raw row; a write past the current width of the
row extends it with empty cells first, as a single-cell range update does
in the backing store. -/
def set_cell (row : List String) (col : Nat) (value : String) : List String :=
  (row ++ List.replicate (col + 1 - row.length) "").set col value

/-- `SheetClient.mark_reminded` of src/bot3.py (identically
`SheetOperations.mark_reminded` of src/bot/bot2.py): write `"TRUE"` to cell
`I{row_index}`, i.e. column 8 of sheet row `row_index`.  Its only callers
pass row indices obtained from `fetch_rows`, which are always in range; an
out-of-range index is modelled as a no-op. -/
def mark_reminded (rows : Sheet) (row_index : Nat) : Sheet :=
  match rows.get? (row_index - 1) with
  | none => rows
  | some r => rows.set (row_index - 1) (set_cell r 8 "TRUE")

/-- `(row[8] or "").strip().lower() == "true"`, the reminded test the
scheduler applies to a fetched (padded) row. -/
def row_flag_true (row : List String) : Bool :=
  py_lower (py_strip (cell row 8)) == "true"

/-- The reminded flag of sheet row `i`, read the way the scheduler would
see it after a fresh fetch. -/
def sheet_flag_true (rows : Sheet) (i : Nat) : Bool :=
  row_flag_true (pad9 (rows.getD (i - 1) []))

/-- Proleptic-Gregorian leap-year test, as `datetime` uses. -/
def is_leap (y : Nat) : Bool :=
  y % 4 == 0 && (y % 100 != 0 || y % 400 == 0)

/-- Length of month `m` (1-12) of year `y`. -/
def days_in_month (y m : Nat) : Nat :=
  if m = 2 then (if is_leap y then 29 else 28)
  else if m = 4 ∨ m = 6 ∨ m = 9 ∨ m = 11 then 30
  else 31

/-- Days in year `y` before the first of month `m`. -/
def days_before_month (y m : Nat) : Nat :=
  match m with
  | 0 => 0
  | 1 => 0
  | n + 1 => days_before_month y n + days_in_month y n

/-- Days before January 1 of year `y` counted from year 1. -/
def days_before_year (y : Nat) : Nat :=
  (y - 1) * 365 + (y - 1) / 4 - (y - 1) / 100 + (y - 1) / 400

/-- The civil minute denoted by a (valid) date and time of day: the
minute count of `y-m-d h:mi` on the fixed-offset timeline.  Two
minute-truncated aware datetimes compare equal under
`strftime("%Y-%m-%d %H:%M")` exactly when these counts are equal. -/
def date_minutes (y m d h mi : Nat) : Nat :=
  ((days_before_year y + days_before_month y m + (d - 1)) * 24 + h) * 60 + mi

/-- `datetime.strptime(day, "%Y/%m/%d")`: 1-4 digit year, 1-2 digit month
and day, separated by `/`, with calendar validation (`datetime` accepts
years 1-9999). -/
def parse_date (s : String) : Option (Nat × Nat × Nat) :=
  match py_split '/' s with
  | [ys, ms, ds] =>
    if ys.data.length ≤ 4 ∧ ms.data.length ≤ 2 ∧ ds.data.length ≤ 2 then
      match py_int? ys, py_int? ms, py_int? ds with
      | some y, some m, some d =>
        if 1 ≤ y ∧ 1 ≤ m ∧ m ≤ 12 ∧ 1 ≤ d ∧ d ≤ days_in_month y m then
          some (y, m, d)
        else none
      | _, _, _ => none
    else none
  | _ => none

/-- `datetime.strptime(start, "%H:%M")`: 1-2 digit hour 0-23 and minute
0-59 separated by `:`. -/
def parse_hm (s : String) : Option (Nat × Nat) :=
  match py_split ':' s with
  | [hs, ms] =>
    if hs.data.length ≤ 2 ∧ ms.data.length ≤ 2 then
      match py_int? hs, py_int? ms with
      | some h, some mi => if h ≤ 23 ∧ mi ≤ 59 then some (h, mi) else none
      | _, _ => none
    else none
  | _ => none

/-- `datetime.strptime(f"{day} {start}", "%Y/%m/%d %H:%M")` of the
reminder loop, as the civil minute of the reservation start. -/
def parse_start_instant (day start_ : String) : Option Nat :=
  match parse_date day, parse_hm start_ with
  | some (y, m, d), some (h, mi) => some (date_minutes y m d h mi)
  | _, _ => none

/-- The per-row due test of `reminder_loop` in src/bot3.py (the body of the
first `for` over `fetch_rows`): skip rows already reminded, rows with an
empty or unparseable date/start, rows whose `start − lead` does not fall on
the current minute `now` (the `strftime` comparison with `now_key`), and —
when the guild yielded a non-empty set of voice-channel names — rows whose
seat name is not among them. -/
def due_bot3 (lead : Nat) (now : Int) (valid_names : List String)
    (row : List String) : Bool :=
  if row_flag_true row then false
  else
    let day := py_strip (cell row 2)
    let start_ := py_strip (cell row 3)
    if day = "" || start_ = "" then false
    else
      match parse_start_instant day start_ with
      | none => false
      | some s =>
        if (s : Int) - (lead : Int) ≠ now then false
        else if valid_names ≠ [] && !(valid_names.contains (cell row 1)) then false
        else true

/-- The `pending_notifications` list a tick of src/bot3.py's
`reminder_loop` collects from one fetch. -/
def pending_bot3 (lead : Nat) (now : Int) (valid_names : List String)
    (rows : Sheet) : List (Nat × List String) :=
  (fetch_rows rows).filter (fun p => due_bot3 lead now valid_names p.2)

/-- The second `for` of `reminder_loop`: for each pending row try
`channel.send`; on `discord.HTTPException` (`sendOk` false) `continue`
without writing; on success call `mark_reminded`.  Returns the row indices
successfully sent together with the updated sheet. -/
def send_phase (sendOk : Nat → Bool) :
    List (Nat × List String) → Sheet → List Nat × Sheet
  | [], rows => ([], rows)
  | (i, _) :: rest, rows =>
    if sendOk i then
      let next := send_phase sendOk rest (mark_reminded rows i)
      (i :: next.1, next.2)
    else send_phase sendOk rest rows

/-- One tick of src/bot3.py's `reminder_loop`, given `lead > 0` and a
resolved reminder channel (otherwise the tick returns before reading the
sheet, sending nothing and writing nothing). -/
def tick_bot3 (lead : Nat) (now : Int) (valid_names : List String)
    (sendOk : Nat → Bool) (rows : Sheet) : List Nat × Sheet :=
  send_phase sendOk (pending_bot3 lead now valid_names rows) rows

/-- A sequence of scheduler ticks, each with its own clock reading and its
own send outcomes; returns all row indices sent across the sequence. -/
def run_ticks (lead : Nat) (valid_names : List String) :
    List (Int × (Nat → Bool)) → Sheet → List Nat × Sheet
  | [], rows => ([], rows)
  | (now, sendOk) :: rest, rows =>
    let t := tick_bot3 lead now valid_names sendOk rows
    let r := run_ticks lead valid_names rest t.2
    (t.1 ++ r.1, r.2)

/-- The `(row[5], row[1], row[2], row[3], row[4])` tuple
`SheetClient.find_matching_row` compares against its key. -/
def row_key (row : List String) : String × String × String × String × String :=
  (cell row 5, cell row 1, cell row 2, cell row 3, cell row 4)

/-- The loop of `find_matching_row`: first fetched row whose key tuple
equals the requested one. -/
def find_from (key : String × String × String × String × String) :
    List (Nat × List String) → Option Nat
  | [] => none
  | (index, row) :: rest =>
    if row_key row = key then some index else find_from key rest

/-- `SheetClient.find_matching_row` of src/bot3.py: the key is
`(str(user_id), channel_name, day, start, end)`. -/
def find_matching_row (rows : Sheet) (user_id : Int)
    (channel_name day start_ end_ : String) : Option Nat :=
  find_from (toString user_id, channel_name, day, start_, end_) (fetch_rows rows)

/-- `SheetClient.delete_row`: `deleteDimension` over
`[row_index - 1, row_index)` removes that single (0-based) row. -/
def delete_row (rows : Sheet) (row_index : Nat) : Sheet :=
  rows.eraseIdx (row_index - 1)

inductive CancelResult
  | cancelled
  | notFound
deriving DecidableEq

/-- The cancellation flow of `CancelReservationModal.on_submit` in
src/bot3.py after input normalization: locate the row by exact tuple with
`find_matching_row`; report not-found and write nothing when it returns
`None` (row indices from `fetch_rows` are ≥ 2, so Python's falsiness test
on the optional index coincides with the `None` test); otherwise
`delete_row` on the found index. -/
def cancel (rows : Sheet) (user_id : Int)
    (channel_name day start_ end_ : String) : CancelResult × Sheet :=
  match find_matching_row rows user_id channel_name day start_ end_ with
  | none => (CancelResult.notFound, rows)
  | some i => (CancelResult.cancelled, delete_row rows i)

/-! ### Basic lemmas about the padded fetch -/

theorem pad9_length (row : List String) : (pad9 row).length = 9 := by
  simp only [pad9, List.length_take, List.length_append, List.length_replicate]
  omega

theorem pad9_of_length_nine {row : List String} (h : row.length = 9) :
    pad9 row = row := by
  simp [pad9, h, List.take_of_length_le]

theorem fetch_rows_from_eq_enumFrom (l : Sheet) :
    ∀ idx, 2 ≤ idx →
      fetch_rows_from idx l = (List.enumFrom idx l).map (fun p => (p.1, pad9 p.2)) := by
  induction l with
  | nil => intro idx _; simp [fetch_rows_from]
  | cons a t ih =>
    intro idx hidx
    have hne : idx ≠ 1 := by omega
    simp only [fetch_rows_from, hne, if_false, List.enumFrom_cons, List.map_cons]
    exact congrArg _ (ih (idx + 1) (by omega))

theorem fetch_rows_nil : fetch_rows [] = [] := rfl

theorem fetch_rows_cons (hd : List String) (t : Sheet) :
    fetch_rows (hd :: t) = (List.enumFrom 2 t).map (fun p => (p.1, pad9 p.2)) := by
  show fetch_rows_from 1 (hd :: t) = _
  simp only [fetch_rows_from, if_pos rfl]
  exact fetch_rows_from_eq_enumFrom t 2 (by omega)

theorem fetch_rows_from_getElem? (l : Sheet) :
    ∀ idx, 2 ≤ idx → ∀ k,
      (fetch_rows_from idx l)[k]? = (l[k]?).map (fun r => (idx + k, pad9 r)) := by
  induction l with
  | nil => intro idx _ k; simp [fetch_rows_from]
  | cons a u ih =>
    intro idx hidx k
    have hne : idx ≠ 1 := by omega
    simp only [fetch_rows_from, hne, if_false]
    cases k with
    | zero => simp
    | succ k' =>
      simp only [List.getElem?_cons_succ]
      rw [ih (idx + 1) (by omega) k']
      cases u[k']? with
      | none => rfl
      | some r => simp; omega

theorem fetch_rows_getElem? (hd : List String) (t : Sheet) (k : Nat) :
    (fetch_rows (hd :: t))[k]? = (t[k]?).map (fun r => (k + 2, pad9 r)) := by
  have h1 : fetch_rows (hd :: t) = fetch_rows_from 2 t := by
    show fetch_rows_from 1 (hd :: t) = _
    simp [fetch_rows_from]
  rw [h1, fetch_rows_from_getElem? t 2 (by omega) k]
  cases t[k]? with
  | none => rfl
  | some r => simp; omega

theorem mem_fetch_rows {rows : Sheet} {p : Nat × List String} :
    p ∈ fetch_rows rows ↔
      ∃ k r, rows.tail[k]? = some r ∧ p = (k + 2, pad9 r) := by
  cases rows with
  | nil =>
    constructor
    · intro h; exact absurd h (by simp [fetch_rows, fetch_rows_from])
    · rintro ⟨k, r, hk, -⟩; simp at hk
  | cons hd t =>
    rw [List.mem_iff_getElem?]
    simp only [List.tail_cons]
    constructor
    · rintro ⟨k, hk⟩
      rw [fetch_rows_getElem? hd t k] at hk
      cases hr : t[k]? with
      | none => rw [hr] at hk; simp at hk
      | some r =>
        rw [hr] at hk
        simp only [Option.map_some'] at hk
        exact ⟨k, r, hr, ((Option.some.injEq _ _).mp hk).symm⟩
    · rintro ⟨k, r, hk, hp⟩
      refine ⟨k, ?_⟩
      rw [fetch_rows_getElem? hd t k, hk, Option.map_some', hp]

theorem fetch_index_bounds {rows : Sheet} {p : Nat × List String}
    (hp : p ∈ fetch_rows rows) : 2 ≤ p.1 ∧ p.1 - 1 < rows.length := by
  rcases mem_fetch_rows.mp hp with ⟨k, r, hk, hp'⟩
  have hlen : k < rows.tail.length := (List.getElem?_eq_some.mp hk).1
  cases rows with
  | nil => simp at hk
  | cons hd t =>
    simp only [List.tail_cons] at hlen
    subst hp'
    constructor
    · omega
    · simp only [List.length_cons]; omega

theorem fetch_raw_row {rows : Sheet} {i : Nat} {row : List String}
    (hp : (i, row) ∈ fetch_rows rows) :
    ∃ r, rows[i - 1]? = some r ∧ row = pad9 r := by
  rcases mem_fetch_rows.mp hp with ⟨k, r, hk, hp'⟩
  cases rows with
  | nil => simp at hk
  | cons hd t =>
    simp only [List.tail_cons] at hk
    have hik : i = k + 2 := congrArg Prod.fst hp'
    have hrow : row = pad9 r := congrArg Prod.snd hp'
    refine ⟨r, ?_, hrow⟩
    rw [hik]
    show (hd :: t)[k + 1]? = some r
    simpa using hk

theorem fetch_map_fst (hd : List String) (t : Sheet) :
    (fetch_rows (hd :: t)).map Prod.fst = List.range' 2 t.length := by
  rw [fetch_rows_cons, List.map_map]
  have : (Prod.fst ∘ fun p : Nat × List String => (p.1, pad9 p.2)) = Prod.fst := rfl
  rw [this, List.enumFrom_map_fst]

theorem fetch_fst_nodup (rows : Sheet) :
    ((fetch_rows rows).map Prod.fst).Nodup := by
  cases rows with
  | nil => simp [fetch_rows, fetch_rows_from]
  | cons hd t => rw [fetch_map_fst]; exact List.nodup_range' 2 t.length

theorem fetch_rows_width {rows : Sheet} {p : Nat × List String}
    (hp : p ∈ fetch_rows rows) : p.2.length = 9 := by
  rcases mem_fetch_rows.mp hp with ⟨k, r, -, hp'⟩
  rw [hp']
  exact pad9_length r

/-! ### Lemmas about cell updates and `mark_reminded` -/

theorem set_cell_flag (r : List String) (v : String) :
    pad9 (set_cell r 8 v) = (pad9 r).set 8 v := by
  have hlen : (r ++ List.replicate (9 - r.length) "").length = r.length + (9 - r.length) := by
    simp
  have hbig : 9 ≤ (r ++ List.replicate (9 - r.length) "").length := by omega
  have hset : ((r ++ List.replicate (9 - r.length) "").set 8 v).length =
      (r ++ List.replicate (9 - r.length) "").length := List.length_set _ _ _
  show ((r ++ List.replicate (9 - r.length) "").set 8 v ++
      List.replicate (9 - ((r ++ List.replicate (9 - r.length) "").set 8 v).length) "").take 9 =
      (pad9 r).set 8 v
  rw [hset]
  have h0 : 9 - (r ++ List.replicate (9 - r.length) "").length = 0 := by omega
  rw [h0, List.replicate_zero, List.append_nil, List.set_take]
  rfl

theorem mark_reminded_length (rows : Sheet) (i : Nat) :
    (mark_reminded rows i).length = rows.length := by
  unfold mark_reminded
  cases h : rows.get? (i - 1) with
  | none => rfl
  | some r => exact List.length_set _ _ _

theorem sheet_flag_mark_self {rows : Sheet} {i : Nat}
    (hi : i - 1 < rows.length) :
    sheet_flag_true (mark_reminded rows i) i = true := by
  rcases List.getElem?_eq_some.mpr ⟨hi, rfl⟩ with h
  have hget : rows.get? (i - 1) = some rows[i - 1] := by
    rw [List.get?_eq_getElem?]; exact h
  unfold mark_reminded
  rw [hget]
  unfold sheet_flag_true
  rw [List.getD_eq_getElem?_getD, List.getElem?_set_eq_of_lt _ (by simpa using hi)]
  show row_flag_true (pad9 (set_cell rows[i - 1] 8 "TRUE")) = true
  rw [set_cell_flag]
  unfold row_flag_true cell
  rw [List.getD_eq_getElem?_getD,
    List.getElem?_set_eq_of_lt _ (by rw [pad9_length]; omega)]
  decide

theorem sheet_flag_mark_ne {rows : Sheet} {i j : Nat}
    (hij : i - 1 ≠ j - 1) :
    sheet_flag_true (mark_reminded rows i) j = sheet_flag_true rows j := by
  unfold mark_reminded
  cases h : rows.get? (i - 1) with
  | none => rfl
  | some r =>
    unfold sheet_flag_true
    rw [List.getD_eq_getElem?_getD, List.getElem?_set_ne hij,
      ← List.getD_eq_getElem?_getD]

theorem sheet_flag_mark_other {rows : Sheet} {i j : Nat}
    (hflag : sheet_flag_true rows j = true) :
    sheet_flag_true (mark_reminded rows i) j = true := by
  by_cases hij : i - 1 = j - 1
  · by_cases hin : i - 1 < rows.length
    · have heq : sheet_flag_true (mark_reminded rows i) j =
          sheet_flag_true (mark_reminded rows i) i := by
        unfold sheet_flag_true; rw [hij]
      rw [heq]
      exact sheet_flag_mark_self hin
    · unfold mark_reminded
      have h : rows.get? (i - 1) = none := by
        rw [List.get?_eq_getElem?, List.getElem?_eq_none]; omega
      rw [h]; exact hflag
  · rw [sheet_flag_mark_ne hij]; exact hflag

theorem set_cell_idem (r : List String) (v : String) :
    set_cell (set_cell r 8 v) 8 v = set_cell r 8 v := by
  unfold set_cell
  have hlen : ((r ++ List.replicate (8 + 1 - r.length) "").set 8 v).length =
      r.length + (8 + 1 - r.length) := by
    rw [List.length_set]; simp
  rw [hlen]
  have h0 : 8 + 1 - (r.length + (8 + 1 - r.length)) = 0 := by omega
  rw [h0, List.replicate_zero, List.append_nil, List.set_set]

theorem mark_reminded_idem (rows : Sheet) (i : Nat) :
    mark_reminded (mark_reminded rows i) i = mark_reminded rows i := by
  cases h : rows.get? (i - 1) with
  | none =>
    have e : mark_reminded rows i = rows := by unfold mark_reminded; rw [h]
    rw [e]
    exact e
  | some r =>
    have hlt : i - 1 < rows.length := by
      rw [List.get?_eq_getElem?] at h
      exact (List.getElem?_eq_some.mp h).1
    have e : mark_reminded rows i = rows.set (i - 1) (set_cell r 8 "TRUE") := by
      unfold mark_reminded; rw [h]
    have h2 : (rows.set (i - 1) (set_cell r 8 "TRUE")).get? (i - 1) =
        some (set_cell r 8 "TRUE") := by
      rw [List.get?_eq_getElem?]
      exact List.getElem?_set_eq_of_lt _ hlt
    have e2 : mark_reminded (rows.set (i - 1) (set_cell r 8 "TRUE")) i =
        (rows.set (i - 1) (set_cell r 8 "TRUE")).set (i - 1)
          (set_cell (set_cell r 8 "TRUE") 8 "TRUE") := by
      unfold mark_reminded; rw [h2]
    rw [e, e2, set_cell_idem, List.set_set]

/-! ### Lemmas about the scheduler tick -/

theorem send_phase_sent (ok : Nat → Bool) (pending : List (Nat × List String)) :
    ∀ rows : Sheet,
      (send_phase ok pending rows).1 =
        (pending.filter (fun p => ok p.1)).map Prod.fst := by
  induction pending with
  | nil => intro rows; rfl
  | cons p rest ih =>
    intro rows
    obtain ⟨i, row⟩ := p
    cases h : ok i with
    | true => simp [send_phase, h, ih]
    | false => simp [send_phase, h, ih]

theorem send_phase_state (ok : Nat → Bool) (pending : List (Nat × List String)) :
    ∀ rows : Sheet,
      (send_phase ok pending rows).2 =
        (pending.filter (fun p => ok p.1)).foldl
          (fun s p => mark_reminded s p.1) rows := by
  induction pending with
  | nil => intro rows; rfl
  | cons p rest ih =>
    intro rows
    obtain ⟨i, row⟩ := p
    cases h : ok i with
    | true => simp [send_phase, h, ih]
    | false => simp [send_phase, h, ih]

theorem send_phase_flag_mono (ok : Nat → Bool)
    (pending : List (Nat × List String)) {j : Nat} :
    ∀ rows : Sheet, sheet_flag_true rows j = true →
      sheet_flag_true (send_phase ok pending rows).2 j = true := by
  induction pending with
  | nil => intro rows h; exact h
  | cons p rest ih =>
    intro rows h
    obtain ⟨i, row⟩ := p
    cases hok : ok i with
    | true =>
      simp only [send_phase, hok, if_true]
      exact ih (mark_reminded rows i) (sheet_flag_mark_other h)
    | false =>
      simp only [send_phase, hok]
      exact ih rows h

theorem send_phase_flag_untouched (ok : Nat → Bool)
    (pending : List (Nat × List String)) {j : Nat} :
    ∀ rows : Sheet, (∀ p ∈ pending, ok p.1 = true → p.1 - 1 ≠ j - 1) →
      sheet_flag_true (send_phase ok pending rows).2 j = sheet_flag_true rows j := by
  induction pending with
  | nil => intro rows _; rfl
  | cons p rest ih =>
    intro rows h
    obtain ⟨i, row⟩ := p
    cases hok : ok i with
    | true =>
      simp only [send_phase, hok, if_true]
      rw [ih (mark_reminded rows i) (fun q hq => h q (List.mem_cons_of_mem _ hq)),
        sheet_flag_mark_ne (h (i, row) (List.mem_cons_self _ _) hok)]
    | false =>
      simp only [send_phase, hok]
      exact ih rows (fun q hq => h q (List.mem_cons_of_mem _ hq))

theorem send_phase_sent_flag (ok : Nat → Bool)
    (pending : List (Nat × List String)) :
    ∀ rows : Sheet, (∀ p ∈ pending, p.1 - 1 < rows.length) →
      ∀ i ∈ (send_phase ok pending rows).1,
        sheet_flag_true (send_phase ok pending rows).2 i = true := by
  induction pending with
  | nil => intro rows _ i hi; exact absurd hi (by simp [send_phase])
  | cons p rest ih =>
    intro rows hb i hi
    obtain ⟨k, row⟩ := p
    cases hok : ok k with
    | true =>
      simp only [send_phase, hok, if_true] at hi ⊢
      rcases List.mem_cons.mp hi with hik | hirest
      · subst hik
        exact send_phase_flag_mono ok rest (mark_reminded rows i)
          (sheet_flag_mark_self (hb (i, row) (List.mem_cons_self _ _)))
      · refine ih (mark_reminded rows k) ?_ i hirest
        intro q hq
        rw [mark_reminded_length]
        exact hb q (List.mem_cons_of_mem _ hq)
    | false =>
      simp only [send_phase, hok] at hi ⊢
      exact ih rows (fun q hq => hb q (List.mem_cons_of_mem _ hq)) i hi

theorem pending_mem_fetch {lead : Nat} {now : Int} {vn : List String}
    {rows : Sheet} {p : Nat × List String}
    (hp : p ∈ pending_bot3 lead now vn rows) : p ∈ fetch_rows rows :=
  List.mem_of_mem_filter hp

theorem due_false_of_flag {lead : Nat} {now : Int} {vn : List String}
    {row : List String} (h : row_flag_true row = true) :
    due_bot3 lead now vn row = false := by
  simp [due_bot3, h]

theorem flag_true_not_pending {lead : Nat} {now : Int} {vn : List String}
    {rows : Sheet} {i : Nat} (h : sheet_flag_true rows i = true) :
    ∀ p ∈ pending_bot3 lead now vn rows, p.1 ≠ i := by
  intro p hp hpi
  subst hpi
  have hfetch : p ∈ fetch_rows rows := pending_mem_fetch hp
  have hdue : due_bot3 lead now vn p.2 = true := (List.mem_filter.mp hp).2
  have hpair : (p.1, p.2) ∈ fetch_rows rows := by
    rw [show (p.1, p.2) = p from rfl]; exact hfetch
  rcases fetch_raw_row hpair with ⟨r, hr, hrow⟩
  have hgetD : rows.getD (p.1 - 1) [] = r := by
    rw [List.getD_eq_getElem?_getD, hr]; rfl
  have hflag : row_flag_true p.2 = true := by
    unfold sheet_flag_true at h
    rw [hgetD] at h
    rw [hrow]
    exact h
  rw [due_false_of_flag hflag] at hdue
  exact Bool.false_ne_true hdue

theorem tick_sent_eq (lead : Nat) (now : Int) (vn : List String)
    (ok : Nat → Bool) (rows : Sheet) :
    (tick_bot3 lead now vn ok rows).1 =
      ((pending_bot3 lead now vn rows).filter (fun p => ok p.1)).map Prod.fst :=
  send_phase_sent ok _ rows

theorem tick_flag_mono {lead : Nat} {now : Int} {vn : List String}
    {ok : Nat → Bool} {rows : Sheet} {i : Nat}
    (h : sheet_flag_true rows i = true) :
    sheet_flag_true (tick_bot3 lead now vn ok rows).2 i = true ∧
      i ∉ (tick_bot3 lead now vn ok rows).1 := by
  constructor
  · exact send_phase_flag_mono ok _ rows h
  · rw [tick_sent_eq]
    intro hmem
    rcases List.mem_map.mp hmem with ⟨p, hp, hpi⟩
    exact flag_true_not_pending h p (List.mem_of_mem_filter hp) hpi

theorem tick_sent_nodup (lead : Nat) (now : Int) (vn : List String)
    (ok : Nat → Bool) (rows : Sheet) :
    (tick_bot3 lead now vn ok rows).1.Nodup := by
  rw [tick_sent_eq]
  have h1 : ((pending_bot3 lead now vn rows).filter
      (fun p => ok p.1)).Sublist (fetch_rows rows) :=
    (List.filter_sublist (pending_bot3 lead now vn rows)).trans
      (List.filter_sublist (fetch_rows rows))
  exact (fetch_fst_nodup rows).sublist (h1.map Prod.fst)

theorem tick_sent_flag {lead : Nat} {now : Int} {vn : List String}
    {ok : Nat → Bool} {rows : Sheet} {i : Nat}
    (hi : i ∈ (tick_bot3 lead now vn ok rows).1) :
    sheet_flag_true (tick_bot3 lead now vn ok rows).2 i = true := by
  refine send_phase_sent_flag ok _ rows ?_ i hi
  intro p hp
  exact (fetch_index_bounds (pending_mem_fetch hp)).2

theorem run_flag_mono {lead : Nat} {vn : List String}
    (ts : List (Int × (Nat → Bool))) {rows : Sheet} {i : Nat}
    (h : sheet_flag_true rows i = true) :
    sheet_flag_true (run_ticks lead vn ts rows).2 i = true ∧
      i ∉ (run_ticks lead vn ts rows).1 := by
  induction ts generalizing rows with
  | nil => exact ⟨h, by simp [run_ticks]⟩
  | cons t rest ih =>
    obtain ⟨now, ok⟩ := t
    have htick := @tick_flag_mono lead now vn ok rows i h
    have hrest := ih htick.1
    refine ⟨hrest.1, ?_⟩
    simp only [run_ticks, List.mem_append]
    rintro (h1 | h2)
    · exact htick.2 h1
    · exact hrest.2 h2

theorem run_sent_nodup (lead : Nat) (vn : List String)
    (ts : List (Int × (Nat → Bool))) (rows : Sheet) :
    (run_ticks lead vn ts rows).1.Nodup := by
  induction ts generalizing rows with
  | nil => simp [run_ticks]
  | cons t rest ih =>
    obtain ⟨now, ok⟩ := t
    simp only [run_ticks]
    rw [List.nodup_append]
    refine ⟨tick_sent_nodup lead now vn ok rows, ih _, ?_⟩
    intro i h1 h2
    have hflag := tick_sent_flag h1
    exact (run_flag_mono rest hflag).2 h2

theorem sheet_flag_of_fetch {rows : Sheet} {i : Nat} {row : List String}
    (hp : (i, row) ∈ fetch_rows rows) :
    sheet_flag_true rows i = row_flag_true row := by
  rcases fetch_raw_row hp with ⟨r, hr, hrow⟩
  subst hrow
  unfold sheet_flag_true
  rw [List.getD_eq_getElem?_getD, hr]
  rfl

theorem due_true_flag_false {lead : Nat} {now : Int} {vn : List String}
    {row : List String} (h : due_bot3 lead now vn row = true) :
    row_flag_true row = false := by
  cases hf : row_flag_true row with
  | false => rfl
  | true =>
    rw [due_false_of_flag hf] at h
    exact absurd h (by simp)

/-! ### Claim theorems: reminder exactly-once (C2) and failure isolation (C4) -/

/-- C2: reminders are exactly-once.  `mark_reminded` flips the reminded
flag of the targeted row to true; calling it twice leaves the sheet exactly
as one call does; the flag never reverts across any sequence of scheduler
ticks (a row whose flag is already true is skipped by every tick and never
sent); and the successful sends of any tick sequence name each row index at
most once. -/
theorem mark_reminded_exactly_once (rows : Sheet) (i lead : Nat)
    (vn : List String) (ts : List (Int × (Nat → Bool)))
    (hi : i - 1 < rows.length) :
    sheet_flag_true (mark_reminded rows i) i = true
    ∧ mark_reminded (mark_reminded rows i) i = mark_reminded rows i
    ∧ (sheet_flag_true rows i = true →
        i ∉ (run_ticks lead vn ts rows).1
        ∧ sheet_flag_true (run_ticks lead vn ts rows).2 i = true)
    ∧ (run_ticks lead vn ts rows).1.Nodup :=
  ⟨sheet_flag_mark_self hi, mark_reminded_idem rows i,
    fun h => ⟨(run_flag_mono ts h).2, (run_flag_mono ts h).1⟩,
    run_sent_nodup lead vn ts rows⟩

def sheet_header : List String :=
  ["予約者", "席名", "日付", "開始", "終了", "ユーザーID", "タイムスタンプ", "参加者JSON", "reminded"]

def w2_rows : Sheet :=
  [sheet_header,
   ["Alice", "Room A", "2025/11/01", "13:00", "14:00", "1", "t", "[]", "TRUE"]]

def w2_ticks : List (Int × (Nat → Bool)) :=
  [(((date_minutes 2025 11 1 12 45 : Nat) : Int), fun _ => true)]

/-- Witness for C2 at a concrete sheet with one already-reminded row. -/
theorem mark_reminded_exactly_once_witness :
    sheet_flag_true (mark_reminded w2_rows 2) 2 = true
    ∧ mark_reminded (mark_reminded w2_rows 2) 2 = mark_reminded w2_rows 2
    ∧ (sheet_flag_true w2_rows 2 = true →
        2 ∉ (run_ticks 15 [] w2_ticks w2_rows).1
        ∧ sheet_flag_true (run_ticks 15 [] w2_ticks w2_rows).2 2 = true)
    ∧ (run_ticks 15 [] w2_ticks w2_rows).1.Nodup :=
  mark_reminded_exactly_once w2_rows 2 15 [] w2_ticks (by decide)

/-- C4: within one tick the reservations sent are exactly the due ones
whose gateway send succeeded (a failed send never aborts the remaining
scan), `mark_reminded` runs exactly on those, and a due reservation whose
send failed still has its reminded flag false after the tick, so a later
tick may retry it. -/
theorem send_failure_leaves_flag_false (lead : Nat) (now : Int)
    (vn : List String) (ok : Nat → Bool) (rows : Sheet) :
    (tick_bot3 lead now vn ok rows).1 =
      ((pending_bot3 lead now vn rows).filter (fun p => ok p.1)).map Prod.fst
    ∧ (tick_bot3 lead now vn ok rows).2 =
      ((pending_bot3 lead now vn rows).filter (fun p => ok p.1)).foldl
        (fun s p => mark_reminded s p.1) rows
    ∧ ∀ p ∈ pending_bot3 lead now vn rows, ok p.1 = false →
        sheet_flag_true (tick_bot3 lead now vn ok rows).2 p.1 = false := by
  refine ⟨send_phase_sent ok _ rows, send_phase_state ok _ rows, ?_⟩
  intro p hp hok
  have hfetch : (p.1, p.2) ∈ fetch_rows rows := pending_mem_fetch hp
  have hdue : due_bot3 lead now vn p.2 = true := (List.mem_filter.mp hp).2
  have hflag0 : sheet_flag_true rows p.1 = false := by
    rw [sheet_flag_of_fetch hfetch]
    exact due_true_flag_false hdue
  have huntouched : sheet_flag_true (tick_bot3 lead now vn ok rows).2 p.1 =
      sheet_flag_true rows p.1 := by
    refine send_phase_flag_untouched ok _ rows ?_
    intro q hq hqok
    have hq2 : 2 ≤ q.1 := (fetch_index_bounds (pending_mem_fetch hq)).1
    have hp2 : 2 ≤ p.1 := (fetch_index_bounds hfetch).1
    have hne : q.1 ≠ p.1 := by
      intro he
      rw [he, hok] at hqok
      exact Bool.false_ne_true hqok
    omega
  rw [huntouched, hflag0]

def w4_rows : Sheet :=
  [sheet_header,
   ["Alice", "Room A", "2025/11/01", "13:00", "14:00", "1", "t", "[]", "FALSE"]]

def w4_now : Int := ((date_minutes 2025 11 1 12 45 : Nat) : Int)

/-- Witness for C4: with the single due row's send failing, the tick sends
nothing, writes nothing, and leaves the row's reminded flag false. -/
theorem send_failure_leaves_flag_false_witness :
    (tick_bot3 15 w4_now [] (fun _ => false) w4_rows).1 =
      ((pending_bot3 15 w4_now [] w4_rows).filter (fun _ => false)).map Prod.fst
    ∧ (tick_bot3 15 w4_now [] (fun _ => false) w4_rows).2 =
      ((pending_bot3 15 w4_now [] w4_rows).filter (fun _ => false)).foldl
        (fun s p => mark_reminded s p.1) w4_rows
    ∧ sheet_flag_true (tick_bot3 15 w4_now [] (fun _ => false) w4_rows).2 2 = false := by
  have h := send_failure_leaves_flag_false 15 w4_now [] (fun _ => false) w4_rows
  exact ⟨h.1, h.2.1, h.2.2 (2, ["Alice", "Room A", "2025/11/01", "13:00", "14:00",
    "1", "t", "[]", "FALSE"]) (by decide) rfl⟩

/-! ### Claim theorems: the due policy of the scheduler (C3) -/

theorem parse_date_empty : parse_date "" = none := by decide

theorem parse_start_instant_nonempty {d t : String} {s : Nat}
    (h : parse_start_instant d t = some s) : d ≠ "" ∧ t ≠ "" := by
  constructor
  · intro hd
    subst hd
    unfold parse_start_instant at h
    rw [parse_date_empty] at h
    cases hpt : parse_hm t with
    | none => rw [hpt] at h; exact Option.noConfusion h
    | some x => rw [hpt] at h; exact Option.noConfusion h
  · intro ht
    subst ht
    unfold parse_start_instant at h
    have hp0 : parse_hm "" = none := by decide
    rw [hp0] at h
    cases hpd : parse_date d with
    | none => rw [hpd] at h; exact Option.noConfusion h
    | some ymd =>
      obtain ⟨y, m, dd⟩ := ymd
      rw [hpd] at h
      exact Option.noConfusion h

/-- A reservation on 2025/11/01 starting at 13:00, not yet reminded. -/
def reservation_1300 : List String :=
  ["Alice", "Room A", "2025/11/01", "13:00", "14:00", "1", "t", "[]", "FALSE"]

def instant_1245 : Int := ((date_minutes 2025 11 1 12 45 : Nat) : Int)

def instant_1246 : Int := ((date_minutes 2025 11 1 12 46 : Nat) : Int)

def instant_1300 : Int := ((date_minutes 2025 11 1 13 0 : Nat) : Int)

/-- C3 counterexample: the reservation starting 13:00 with a 15-minute lead
is inside the sliding window at the 12:46 tick (12:45 ≤ 12:46 ≤ 13:00), yet
src/bot3.py's due test — an exact-minute match of `start − lead` against
the tick's minute — rejects it, so "due iff now ≥ reminder_instant and
start_instant ≥ now" fails on the code at this input. -/
theorem sliding_window_policy_counterexample :
    ¬ (due_bot3 15 instant_1246 [] reservation_1300 = true
        ↔ (instant_1300 - 15 ≤ instant_1246 ∧ instant_1246 ≤ instant_1300)) := by
  decide

/-- C3 (amended): src/bot3.py's scheduler uses the exact-minute-match due
policy: a not-yet-reminded reservation with parseable date and start (and
no voice-name restriction in force) is due at a tick iff
`start_instant − lead` equals the tick's minute-truncated `now`; with a
15-minute lead and a 13:00 start, the 12:45 tick finds it due and the 12:46
tick does not. -/
theorem due_is_exact_minute_match (lead : Nat) (now : Int)
    (row : List String) (s : Nat)
    (hflag : row_flag_true row = false)
    (hparse : parse_start_instant (py_strip (cell row 2))
        (py_strip (cell row 3)) = some s) :
    (due_bot3 lead now [] row = true ↔ (s : Int) - (lead : Int) = now)
    ∧ due_bot3 15 instant_1245 [] reservation_1300 = true
    ∧ due_bot3 15 instant_1246 [] reservation_1300 = false := by
  refine ⟨?_, by decide, by decide⟩
  obtain ⟨hd, ht⟩ := parse_start_instant_nonempty hparse
  unfold due_bot3
  rw [hflag]
  simp only [Bool.false_eq_true, if_false]
  have hguard : (py_strip (cell row 2) = "" || py_strip (cell row 3) = "") = false := by
    simp [hd, ht]
  rw [hguard]
  simp only [Bool.false_eq_true, if_false]
  rw [hparse]
  by_cases he : (s : Int) - (lead : Int) = now
  · simp [he]
  · simp [he]

def w3_start : Nat := date_minutes 2025 11 1 13 0

/-- Witness for C3 (amended) at the 12:45 tick. -/
theorem due_is_exact_minute_match_witness :
    (due_bot3 15 instant_1245 [] reservation_1300 = true
      ↔ ((w3_start : Int) - (15 : Nat) = instant_1245))
    ∧ due_bot3 15 instant_1245 [] reservation_1300 = true
    ∧ due_bot3 15 instant_1246 [] reservation_1300 = false :=
  due_is_exact_minute_match 15 instant_1245 reservation_1300 w3_start
    (by decide) (by decide)

/-! ### Claim theorems: the overlap test (C9) -/

/-- C9: for parseable times with `startA < endA` and `startB < endB`,
`has_overlap` computes exactly `max(sa, sb) < min(ea, eb)`, that test holds
iff the half-open minute intervals `[sa, ea)` and `[sb, eb)` share a point,
and abutting intervals (`ea = sb`) do not overlap. -/
theorem has_overlap_iff_intersect (A B C D : String) (sa ea sb eb : Nat)
    (hA : time_to_minutes A = some sa) (hB : time_to_minutes B = some ea)
    (hC : time_to_minutes C = some sb) (hD : time_to_minutes D = some eb)
    (hab : sa < ea) (hcd : sb < eb) :
    has_overlap A B C D = some (decide (max sa sb < min ea eb))
    ∧ (max sa sb < min ea eb ↔ ∃ t, (sa ≤ t ∧ t < ea) ∧ (sb ≤ t ∧ t < eb))
    ∧ (ea = sb → has_overlap A B C D = some false) := by
  have h1 : has_overlap A B C D = some (decide (max sa sb < min ea eb)) := by
    unfold has_overlap
    rw [hA, hB, hC, hD]
  refine ⟨h1, ?_, ?_⟩
  · constructor
    · intro h
      exact ⟨max sa sb, ⟨le_max_left _ _, h.trans_le (min_le_left _ _)⟩,
        ⟨le_max_right _ _, h.trans_le (min_le_right _ _)⟩⟩
    · rintro ⟨t, ⟨h1a, h1b⟩, ⟨h2a, h2b⟩⟩
      omega
  · intro he
    subst he
    rw [h1]
    simp only [Option.some.injEq, decide_eq_false_iff_not]
    omega

/-- Witness for C9 at 13:00-14:00 against the abutting 14:00-15:00. -/
theorem has_overlap_iff_intersect_witness :
    has_overlap "13:00" "14:00" "14:00" "15:00" = some (decide (max 780 840 < min 840 900))
    ∧ (max 780 840 < min 840 900 ↔ ∃ t, (780 ≤ t ∧ t < 840) ∧ (840 ≤ t ∧ t < 900))
    ∧ (840 = 840 → has_overlap "13:00" "14:00" "14:00" "15:00" = some false) :=
  has_overlap_iff_intersect "13:00" "14:00" "14:00" "15:00" 780 840 840 900
    (by decide) (by decide) (by decide) (by decide) (by decide) (by decide)

/-! ### Claim theorems: row indexing of FetchRows (C5) -/

/-- C5 counterexample: with a header and one data row, `fetch_rows` returns
that first data row under row index 2 (its sheet row number), not 1. -/
theorem fetch_first_row_index_counterexample :
    (fetch_rows [sheet_header, reservation_1300]).map Prod.fst = [2]
    ∧ (2 : Nat) ≠ 1 := by
  decide

/-- C5 (amended): `fetch_rows` returns the data rows in order, header
excluded, and the `row_index` paired with the k-th data row (0-based k) is
its sheet row number `k + 2` — 1-based over the whole sheet including the
header row, so the first data row carries row index 2. -/
theorem fetch_rows_sheet_row_numbers (hd : List String) (t : Sheet) :
    (fetch_rows (hd :: t)).length = t.length
    ∧ ∀ k, (fetch_rows (hd :: t))[k]? = (t[k]?).map (fun r => (k + 2, pad9 r)) := by
  refine ⟨?_, fetch_rows_getElem? hd t⟩
  rw [fetch_rows_cons, List.length_map]
  simp

/-! ### Claim theorems: fetched rows are 9 wide (C10) -/

theorem pad9_of_short {r : List String} (h : r.length ≤ 9) :
    pad9 r = r ++ List.replicate (9 - r.length) "" := by
  unfold pad9
  apply List.take_of_length_le
  simp only [List.length_append, List.length_replicate]
  omega

theorem pad9_of_long {r : List String} (h : 9 ≤ r.length) :
    pad9 r = r.take 9 := by
  unfold pad9
  rw [show 9 - r.length = 0 by omega, List.replicate_zero, List.append_nil]

/-- C10: every pair returned by `fetch_rows` carries a field tuple of
exactly 9 cells — the raw stored row padded with empty strings when shorter
and truncated when longer — so every positional access to columns 0-8
(including the participants JSON at 7 and the reminded flag at 8) is in
bounds. -/
theorem fetch_rows_padded_width (rows : Sheet) (p : Nat × List String)
    (hp : p ∈ fetch_rows rows) :
    p.2.length = 9
    ∧ (∀ k, k ≤ 8 → k < p.2.length)
    ∧ ∃ r, rows[p.1 - 1]? = some r
        ∧ p.2 = pad9 r
        ∧ (r.length ≤ 9 → p.2 = r ++ List.replicate (9 - r.length) "")
        ∧ (9 ≤ r.length → p.2 = r.take 9) := by
  have hw : p.2.length = 9 := fetch_rows_width hp
  have hpair : (p.1, p.2) ∈ fetch_rows rows := by
    rw [show (p.1, p.2) = p from rfl]; exact hp
  rcases fetch_raw_row hpair with ⟨r, hr, hrow⟩
  exact ⟨hw, fun k hk => by omega,
    ⟨r, hr, hrow, fun h => by rw [hrow, pad9_of_short h],
      fun h => by rw [hrow, pad9_of_long h]⟩⟩

/-- Witness for C10 on a sheet whose data row has a single stored cell. -/
theorem fetch_rows_padded_width_witness :
    (pad9 ["x"]).length = 9
    ∧ (∀ k, k ≤ 8 → k < (pad9 ["x"]).length)
    ∧ ∃ r, [sheet_header, ["x"]][(2 : Nat) - 1]? = some r
        ∧ pad9 ["x"] = pad9 r
        ∧ (r.length ≤ 9 → pad9 ["x"] = r ++ List.replicate (9 - r.length) "")
        ∧ (9 ≤ r.length → pad9 ["x"] = r.take 9) :=
  fetch_rows_padded_width [sheet_header, ["x"]] (2, pad9 ["x"]) (by decide)

/-! ### Lemmas about `find_matching_row` and `delete_row` -/

theorem find_from_none_iff {key : String × String × String × String × String}
    {l : List (Nat × List String)} :
    find_from key l = none ↔ ∀ p ∈ l, row_key p.2 ≠ key := by
  induction l with
  | nil => simp [find_from]
  | cons p rest ih =>
    obtain ⟨i, row⟩ := p
    by_cases h : row_key row = key
    · simp [find_from, h]
    · rw [show find_from key ((i, row) :: rest) = find_from key rest from by
        simp [find_from, h], ih]
      constructor
      · intro hall q hq
        rcases List.mem_cons.mp hq with rfl | hq'
        · exact h
        · exact hall q hq'
      · intro hall q hq
        exact hall q (List.mem_cons_of_mem _ hq)

theorem find_from_some_split {key : String × String × String × String × String}
    {l : List (Nat × List String)} {i : Nat}
    (h : find_from key l = some i) :
    ∃ pre row post, l = pre ++ (i, row) :: post ∧ row_key row = key ∧
      ∀ p ∈ pre, row_key p.2 ≠ key := by
  induction l with
  | nil => exact absurd h (by simp [find_from])
  | cons p rest ih =>
    obtain ⟨j, row⟩ := p
    by_cases hk : row_key row = key
    · have : find_from key ((j, row) :: rest) = some j := by
        simp [find_from, hk]
      rw [this] at h
      obtain rfl : j = i := (Option.some.injEq _ _).mp h
      exact ⟨[], row, rest, rfl, hk, by simp⟩
    · have : find_from key ((j, row) :: rest) = find_from key rest := by
        simp [find_from, hk]
      rw [this] at h
      rcases ih h with ⟨pre, row', post, hsplit, hkey, hpre⟩
      refine ⟨(j, row) :: pre, row', post, by rw [hsplit]; rfl, hkey, ?_⟩
      intro q hq
      rcases List.mem_cons.mp hq with rfl | hq'
      · exact hk
      · exact hpre q hq'

theorem pairwise_lt_range' (s n : Nat) :
    (List.range' s n).Pairwise (· < ·) := by
  induction n generalizing s with
  | zero => simp
  | succ k ih =>
    rw [List.range'_succ]
    refine List.Pairwise.cons ?_ (ih (s + 1))
    intro b hb
    rcases List.mem_range'.mp hb with ⟨j, hj, rfl⟩
    omega

theorem fetch_pairwise_lt (rows : Sheet) :
    (fetch_rows rows).Pairwise (fun a b => a.1 < b.1) := by
  cases rows with
  | nil => simp [fetch_rows, fetch_rows_from]
  | cons hd t =>
    have h := pairwise_lt_range' 2 t.length
    rw [← fetch_map_fst hd t, List.pairwise_map] at h
    exact h

theorem map_eraseIdx {α β : Type} (f : α → β) (l : List α) :
    ∀ n, (l.eraseIdx n).map f = (l.map f).eraseIdx n := by
  induction l with
  | nil => intro n; rfl
  | cons a t ih =>
    intro n
    cases n with
    | zero => rfl
    | succ m =>
      show (a :: t.eraseIdx m).map f = (f a :: (t.map f).eraseIdx m)
      rw [List.map_cons, ih m]

theorem fetch_tuples (hd : List String) (t : Sheet) :
    (fetch_rows (hd :: t)).map (fun p => row_key p.2) =
      t.map (fun r => row_key (pad9 r)) := by
  rw [fetch_rows_cons, List.map_map]
  have h : ((fun p : Nat × List String => row_key p.2) ∘
      fun p : Nat × List String => (p.1, pad9 p.2)) =
      ((fun r => row_key (pad9 r)) ∘ Prod.snd) := rfl
  rw [h, ← List.map_map, List.enumFrom_map_snd]

/-! ### Claim theorems: cancellation (C6, C7) -/

def cancel_rows : Sheet := [sheet_header, reservation_1300]

/-- C6: `cancel` locates its target by exact equality of the
`(owner_id, seat, date, start, end)` tuple.  When no fetched row's tuple
matches, it reports not-found and leaves the sheet unchanged; when one or
more match, `find_matching_row` returns an index, and for that index the
row is a matching one, its index is least among all matches (the first in
row order), and `delete_row` runs exactly on it. -/
theorem cancel_exact_tuple_first_match (rows : Sheet) (uid : Int)
    (ch day st en : String) :
    ((∀ p ∈ fetch_rows rows, row_key p.2 ≠ (toString uid, ch, day, st, en)) →
      cancel rows uid ch day st en = (CancelResult.notFound, rows))
    ∧ ((∃ p ∈ fetch_rows rows, row_key p.2 = (toString uid, ch, day, st, en)) →
      ∃ i, find_matching_row rows uid ch day st en = some i)
    ∧ ∀ i, find_matching_row rows uid ch day st en = some i →
        cancel rows uid ch day st en = (CancelResult.cancelled, delete_row rows i)
        ∧ (∃ row, (i, row) ∈ fetch_rows rows ∧
            row_key row = (toString uid, ch, day, st, en))
        ∧ ∀ p ∈ fetch_rows rows,
            row_key p.2 = (toString uid, ch, day, st, en) → i ≤ p.1 := by
  refine ⟨?_, ?_, ?_⟩
  · intro h
    have hn : find_from (toString uid, ch, day, st, en) (fetch_rows rows) = none :=
      find_from_none_iff.mpr h
    unfold cancel find_matching_row
    rw [hn]
  · rintro ⟨p, hp, hkey⟩
    cases hf : find_matching_row rows uid ch day st en with
    | none => exact absurd hkey (find_from_none_iff.mp hf p hp)
    | some i => exact ⟨i, rfl⟩
  · intro i hf
    have hf' : find_from (toString uid, ch, day, st, en) (fetch_rows rows) = some i := hf
    rcases find_from_some_split hf' with ⟨pre, row, post, hsplit, hkey, hpre⟩
    refine ⟨by unfold cancel; rw [hf], ⟨row, ?_, hkey⟩, ?_⟩
    · rw [hsplit]
      exact List.mem_append.mpr (Or.inr (List.mem_cons_self _ _))
    · intro p hp hpk
      have hpw := fetch_pairwise_lt rows
      rw [hsplit] at hpw hp
      rcases List.mem_append.mp hp with hppre | hpmid
      · exact absurd hpk (hpre p hppre)
      · rcases List.mem_cons.mp hpmid with rfl | hppost
        · exact Nat.le_refl i
        · have hcons := (List.pairwise_append.mp hpw).2.1
          exact Nat.le_of_lt ((List.pairwise_cons.mp hcons).1 p hppost)

/-- Witness for C6: cancelling with a key that matches no row (owner 99)
reports not-found and changes nothing; the owner's exact key is found at
sheet row 2 and that row is deleted. -/
theorem cancel_exact_tuple_first_match_witness :
    cancel cancel_rows 99 "Room A" "2025/11/01" "13:00" "14:00"
        = (CancelResult.notFound, cancel_rows)
    ∧ cancel cancel_rows 1 "Room A" "2025/11/01" "13:00" "14:00"
        = (CancelResult.cancelled, delete_row cancel_rows 2) := by
  have h99 := cancel_exact_tuple_first_match cancel_rows 99 "Room A" "2025/11/01" "13:00" "14:00"
  have h1 := cancel_exact_tuple_first_match cancel_rows 1 "Room A" "2025/11/01" "13:00" "14:00"
  exact ⟨h99.1 (by decide), (h1.2.2 2 (by decide)).1⟩

/-- C7 counterexample: a caller (user id 2) who is not the owner (user id
1) of the matching row does not get an owner-mismatch error — the engine
has no such outcome; the caller's id is part of the exact-match key, so the
lookup finds nothing and the reply is not-found (`CancelResult` of the code
has only `cancelled` and `notFound`).  The sheet is unchanged. -/
theorem cancel_not_owner_counterexample :
    cancel cancel_rows 2 "Room A" "2025/11/01" "13:00" "14:00"
      = (CancelResult.notFound, cancel_rows) := by
  decide

/-- C7 (amended): when every row matching the (seat, date, start, end)
tuple has an owner id different from the caller's, `cancel` returns
not-found (not an owner-mismatch error, which the code cannot produce) and
performs no write: the sheet, including the matching row, persists
unchanged. -/
theorem cancel_by_non_owner_not_found (rows : Sheet) (uid : Int)
    (ch day st en : String)
    (h : ∀ p ∈ fetch_rows rows,
        (cell p.2 1, cell p.2 2, cell p.2 3, cell p.2 4) = (ch, day, st, en) →
        cell p.2 5 ≠ toString uid) :
    cancel rows uid ch day st en = (CancelResult.notFound, rows) := by
  have hn : find_from (toString uid, ch, day, st, en) (fetch_rows rows) = none := by
    rw [find_from_none_iff]
    intro p hp heq
    simp only [row_key, Prod.mk.injEq] at heq
    obtain ⟨h5, h1, h2, h3, h4⟩ := heq
    exact h p hp (by rw [h1, h2, h3, h4]) h5
  unfold cancel find_matching_row
  rw [hn]

/-- Witness for C7 (amended) with caller id 3 against the row owned by 1. -/
theorem cancel_by_non_owner_not_found_witness :
    cancel cancel_rows 3 "Room A" "2025/11/01" "13:00" "14:00"
      = (CancelResult.notFound, cancel_rows) :=
  cancel_by_non_owner_not_found cancel_rows 3 "Room A" "2025/11/01" "13:00" "14:00"
    (by decide)

/-! ### Claim theorems: a successful cancel removes exactly one row (C8) -/

theorem eraseIdx_append_cons {α : Type} (A : List α) (x : α) (B : List α) :
    (A ++ x :: B).eraseIdx A.length = A ++ B := by
  induction A with
  | nil => rfl
  | cons a A ih =>
    show a :: (A ++ x :: B).eraseIdx A.length = a :: (A ++ B)
    rw [ih]

/-- C8: a successful `cancel` (here: one whose `find_matching_row` found
sheet row `i`) deletes exactly that row: the sheet shrinks by exactly one
row, the ordered list of `(owner_id, seat, date, start, end)` tuples of the
remaining data rows is the old list with exactly the matched entry removed
(every other reservation's tuple is untouched), and when the match was
unique a subsequent lookup of the cancelled tuple finds nothing. -/
theorem cancel_removes_exactly_one (rows : Sheet) (uid : Int)
    (ch day st en : String) (i : Nat)
    (hfind : find_matching_row rows uid ch day st en = some i) :
    cancel rows uid ch day st en = (CancelResult.cancelled, delete_row rows i)
    ∧ (delete_row rows i).length + 1 = rows.length
    ∧ (fetch_rows (delete_row rows i)).map (fun p => row_key p.2)
        = ((fetch_rows rows).map (fun p => row_key p.2)).eraseIdx (i - 2)
    ∧ ((fetch_rows rows).countP
          (fun p => decide (row_key p.2 = (toString uid, ch, day, st, en))) = 1 →
        find_matching_row (delete_row rows i) uid ch day st en = none) := by
  have hf' : find_from (toString uid, ch, day, st, en) (fetch_rows rows) = some i :=
    hfind
  rcases find_from_some_split hf' with ⟨pre, row, post, hsplit, hkey, hpre⟩
  have hmem : (i, row) ∈ fetch_rows rows := by
    rw [hsplit]
    exact List.mem_append.mpr (Or.inr (List.mem_cons_self _ _))
  cases rows with
  | nil => exact absurd hmem (by simp [fetch_rows, fetch_rows_from])
  | cons hd t =>
    have hpos : (fetch_rows (hd :: t))[pre.length]? = some (i, row) := by
      rw [hsplit, List.getElem?_append_right (Nat.le_refl _), Nat.sub_self]
      simp
    rw [fetch_rows_getElem? hd t pre.length] at hpos
    rcases ht : t[pre.length]? with _ | r
    · rw [ht] at hpos; exact absurd hpos (by simp)
    rw [ht] at hpos
    simp only [Option.map_some', Option.some.injEq, Prod.mk.injEq] at hpos
    obtain ⟨hi, hrow⟩ := hpos
    have hposlt : pre.length < t.length := (List.getElem?_eq_some.mp ht).1
    have hi2 : i - 2 = pre.length := by omega
    have hdel : delete_row (hd :: t) i = hd :: t.eraseIdx pre.length := by
      unfold delete_row
      rw [show i - 1 = pre.length + 1 by omega]
      rfl
    have htuples : (fetch_rows (hd :: t)).map (fun p => row_key p.2) =
        t.map (fun r => row_key (pad9 r)) := fetch_tuples hd t
    have htuples' : (fetch_rows (delete_row (hd :: t) i)).map (fun p => row_key p.2) =
        (t.eraseIdx pre.length).map (fun r => row_key (pad9 r)) := by
      rw [hdel]; exact fetch_tuples hd _
    have herase : (fetch_rows (delete_row (hd :: t) i)).map (fun p => row_key p.2) =
        ((fetch_rows (hd :: t)).map (fun p => row_key p.2)).eraseIdx (i - 2) := by
      rw [htuples', htuples, hi2, map_eraseIdx]
    refine ⟨by unfold cancel; rw [hfind], ?_, herase, ?_⟩
    · rw [hdel]
      simp only [List.length_cons]
      rw [List.length_eraseIdx_of_lt hposlt]
      omega
    · intro hcount
      rw [hsplit, List.countP_append] at hcount
      have hposcount : List.countP
          (fun p => decide (row_key p.2 = (toString uid, ch, day, st, en)))
          ((i, row) :: post) =
          List.countP
            (fun p => decide (row_key p.2 = (toString uid, ch, day, st, en)))
            post + 1 :=
        List.countP_cons_of_pos _ _ (by simpa using hkey)
      rw [hposcount] at hcount
      have hprez : ∀ p ∈ pre,
          row_key p.2 ≠ (toString uid, ch, day, st, en) := hpre
      have hpostz : List.countP
          (fun p => decide (row_key p.2 = (toString uid, ch, day, st, en)))
          post = 0 := by omega
      have hpostne : ∀ p ∈ post,
          row_key p.2 ≠ (toString uid, ch, day, st, en) := by
        intro p hp
        have := List.countP_eq_zero.mp hpostz p hp
        simpa using this
      show find_from (toString uid, ch, day, st, en)
          (fetch_rows (delete_row (hd :: t) i)) = none
      rw [find_from_none_iff]
      intro p hp hpk
      have hmemtup : row_key p.2 ∈
          (fetch_rows (delete_row (hd :: t) i)).map (fun q => row_key q.2) :=
        List.mem_map_of_mem _ hp
      rw [herase, hsplit, List.map_append, List.map_cons] at hmemtup
      have hlen : i - 2 = (pre.map (fun q => row_key q.2)).length := by
        rw [List.length_map]; omega
      rw [hlen, eraseIdx_append_cons] at hmemtup
      rcases List.mem_append.mp hmemtup with hin | hin
      · rcases List.mem_map.mp hin with ⟨q, hq, hqtup⟩
        exact hprez q hq (hqtup.trans hpk)
      · rcases List.mem_map.mp hin with ⟨q, hq, hqtup⟩
        exact hpostne q hq (hqtup.trans hpk)

/-- Witness for C8: the owner cancels the unique matching reservation; one
row disappears, the tuple list loses exactly that entry, and the tuple is
no longer found. -/
theorem cancel_removes_exactly_one_witness :
    cancel cancel_rows 1 "Room A" "2025/11/01" "13:00" "14:00"
        = (CancelResult.cancelled, delete_row cancel_rows 2)
    ∧ (delete_row cancel_rows 2).length + 1 = cancel_rows.length
    ∧ (fetch_rows (delete_row cancel_rows 2)).map (fun p => row_key p.2)
        = ((fetch_rows cancel_rows).map (fun p => row_key p.2)).eraseIdx (2 - 2)
    ∧ find_matching_row (delete_row cancel_rows 2) 1 "Room A" "2025/11/01"
        "13:00" "14:00" = none := by
  have h := cancel_removes_exactly_one cancel_rows 1 "Room A" "2025/11/01"
    "13:00" "14:00" 2 (by decide)
  exact ⟨h.1, h.2.1, h.2.2.1, h.2.2.2 (by decide)⟩

/-! ### Lemmas about the conflict check, and the Reserve claim (C1) -/

theorem time_to_minutes_empty : time_to_minutes "" = none := by decide

theorem has_overlap_empty3 (a b d : String) : has_overlap a b "" d = none := by
  unfold has_overlap
  rw [time_to_minutes_empty]
  cases time_to_minutes a <;> cases time_to_minutes b <;>
    cases time_to_minutes d <;> rfl

theorem has_overlap_empty4 (a b c : String) : has_overlap a b c "" = none := by
  unfold has_overlap
  rw [time_to_minutes_empty]
  cases time_to_minutes a <;> cases time_to_minutes b <;>
    cases time_to_minutes c <;> rfl

theorem has_overlap_comm (a b c d : String) :
    has_overlap a b c d = has_overlap c d a b := by
  unfold has_overlap
  cases time_to_minutes a <;> cases time_to_minutes b <;>
    cases time_to_minutes c <;> cases time_to_minutes d <;>
    first
    | rfl
    | exact congrArg some (decide_eq_decide.mpr
        (by rw [Nat.max_comm, Nat.min_comm]))

theorem conflicts_sound {day st en : String} (hday : day ≠ "")
    {l : List (Nat × List String)} :
    ∀ {cs : List String}, conflicts_from day st en l = some cs →
      ∀ p ∈ l, cell p.2 2 = day →
        has_overlap st en (cell p.2 3) (cell p.2 4) = some true →
        cell p.2 1 ∈ cs := by
  induction l with
  | nil =>
    intro cs _ p hp
    exact absurd hp (List.not_mem_nil p)
  | cons q rest ih =>
    intro cs h p hp hpday hpov
    obtain ⟨j, row⟩ := q
    rcases List.mem_cons.mp hp with rfl | hprest
    · -- p is the head row
      by_cases hguard : cell row 2 = "" ∨ cell row 3 = "" ∨ cell row 4 = ""
      · rcases hguard with hg | hg | hg
        · exact absurd (hpday ▸ hg) hday
        · rw [show cell (j, row).2 3 = "" from hg, has_overlap_empty3] at hpov
          exact Option.noConfusion hpov
        · rw [show cell (j, row).2 4 = "" from hg, has_overlap_empty4] at hpov
          exact Option.noConfusion hpov
      · have hdq : ¬ cell row 2 ≠ day := by
          intro hne; exact hne hpday
        have hov : has_overlap st en (cell row 3) (cell row 4) = some true := hpov
        have hstep : conflicts_from day st en ((j, row) :: rest) =
            (conflicts_from day st en rest).map (cell row 1 :: ·) := by
          simp only [conflicts_from, if_neg hguard, if_neg hdq, hov]
        rw [hstep] at h
        rcases Option.map_eq_some'.mp h with ⟨cs', hcs', rfl⟩
        exact List.mem_cons_self _ _
    · -- p is in the tail: reduce h to the tail computation
      by_cases hguard : cell row 2 = "" ∨ cell row 3 = "" ∨ cell row 4 = ""
      · have hstep : conflicts_from day st en ((j, row) :: rest) =
            conflicts_from day st en rest := by
          simp only [conflicts_from, if_pos hguard]
        rw [hstep] at h
        exact ih h p hprest hpday hpov
      · by_cases hdq : cell row 2 ≠ day
        · have hstep : conflicts_from day st en ((j, row) :: rest) =
              conflicts_from day st en rest := by
            simp only [conflicts_from, if_neg hguard, if_pos hdq]
          rw [hstep] at h
          exact ih h p hprest hpday hpov
        · cases hov : has_overlap st en (cell row 3) (cell row 4) with
          | none =>
            have hstep : conflicts_from day st en ((j, row) :: rest) = none := by
              simp only [conflicts_from, if_neg hguard, if_neg hdq, hov]
            rw [hstep] at h
            exact Option.noConfusion h
          | some b =>
            cases b with
            | true =>
              have hstep : conflicts_from day st en ((j, row) :: rest) =
                  (conflicts_from day st en rest).map (cell row 1 :: ·) := by
                simp only [conflicts_from, if_neg hguard, if_neg hdq, hov]
              rw [hstep] at h
              rcases Option.map_eq_some'.mp h with ⟨cs', hcs', rfl⟩
              exact List.mem_cons_of_mem _ (ih hcs' p hprest hpday hpov)
            | false =>
              have hstep : conflicts_from day st en ((j, row) :: rest) =
                  conflicts_from day st en rest := by
                simp only [conflicts_from, if_neg hguard, if_neg hdq, hov]
              rw [hstep] at h
              exact ih h p hprest hpday hpov

theorem fetch_rows_from_append (l : Sheet) (r : List String) :
    ∀ idx, 2 ≤ idx →
      fetch_rows_from idx (l ++ [r]) =
        fetch_rows_from idx l ++ [(idx + l.length, pad9 r)] := by
  induction l with
  | nil =>
    intro idx h
    simp [fetch_rows_from, show idx ≠ 1 by omega]
  | cons a t ih =>
    intro idx h
    have hne : idx ≠ 1 := by omega
    simp only [List.cons_append, fetch_rows_from, hne, if_false, List.append_eq]
    rw [ih (idx + 1) (by omega)]
    have harith : idx + 1 + t.length = idx + (a :: t).length := by
      simp only [List.length_cons]; omega
    rw [harith]

theorem fetch_rows_append (hd : List String) (t : Sheet) (r : List String) :
    fetch_rows ((hd :: t) ++ [r]) =
      fetch_rows (hd :: t) ++ [((hd :: t).length + 1, pad9 r)] := by
  have h1 : fetch_rows ((hd :: t) ++ [r]) = fetch_rows_from 2 (t ++ [r]) := by
    show fetch_rows_from 1 (hd :: (t ++ [r])) = _
    simp [fetch_rows_from]
  have h2 : fetch_rows (hd :: t) = fetch_rows_from 2 t := by
    show fetch_rows_from 1 (hd :: t) = _
    simp [fetch_rows_from]
  rw [h1, h2, fetch_rows_from_append t r 2 (by omega)]
  have : 2 + t.length = (hd :: t).length + 1 := by
    simp only [List.length_cons]; omega
  rw [this]

theorem pad9_reservation_row (ud ch day st en uid ts : String) :
    pad9 (reservation_row ud ch day st en uid ts) =
      reservation_row ud ch day st en uid ts :=
  pad9_of_length_nine (by simp [reservation_row])

/-- C1: starting from a sheet satisfying no-double-booking, the Reserve
flow (availability check and append back-to-back, with no interleaved
writer — the reading the claim's spec source sanctions) either reports the
slot taken (or aborts on a malformed stored time) writing nothing, or
appends a row that overlaps no existing reservation with the same seat
name and date, and the no-double-booking invariant holds of the resulting
sheet in every case. -/
theorem reserve_preserves_no_double_booking (rows : Sheet)
    (ud seat day st en uid ts : String)
    (hhdr : rows ≠ []) (hday : day ≠ "") (hinv : NoDoubleBooking rows) :
    ((reserve rows ud seat day st en uid ts).1 = ReserveResult.slotTaken →
        (reserve rows ud seat day st en uid ts).2 = rows)
    ∧ ((reserve rows ud seat day st en uid ts).1 = ReserveResult.fetchError →
        (reserve rows ud seat day st en uid ts).2 = rows)
    ∧ ((reserve rows ud seat day st en uid ts).1 = ReserveResult.reserved →
        ∀ q ∈ fetch_rows rows, cell q.2 1 = seat → cell q.2 2 = day →
          has_overlap st en (cell q.2 3) (cell q.2 4) ≠ some true)
    ∧ NoDoubleBooking (reserve rows ud seat day st en uid ts).2 := by
  cases hc : conflicting_seat_names rows day st en with
  | none =>
    have hr : reserve rows ud seat day st en uid ts =
        (ReserveResult.fetchError, rows) := by
      unfold reserve; rw [hc]
    rw [hr]
    exact ⟨fun h => rfl, fun _ => rfl,
      fun h => ReserveResult.noConfusion h, hinv⟩
  | some cs =>
    by_cases hmem : seat ∈ cs
    · have hr : reserve rows ud seat day st en uid ts =
          (ReserveResult.slotTaken, rows) := by
        simp only [reserve, hc]
        rw [if_pos hmem]
      rw [hr]
      exact ⟨fun _ => rfl, fun h => ReserveResult.noConfusion h,
        fun h => ReserveResult.noConfusion h, hinv⟩
    · have hr : reserve rows ud seat day st en uid ts =
          (ReserveResult.reserved,
            append_reservation rows ud seat day st en uid ts) := by
        simp only [reserve, hc]
        rw [if_neg hmem]
      have hnoov : ∀ q ∈ fetch_rows rows, cell q.2 1 = seat → cell q.2 2 = day →
          has_overlap st en (cell q.2 3) (cell q.2 4) ≠ some true := by
        intro q hq h1 h2 hov
        exact hmem (h1 ▸ conflicts_sound hday hc q hq h2 hov)
      rw [hr]
      refine ⟨fun h => ReserveResult.noConfusion h,
        fun h => ReserveResult.noConfusion h, fun _ => hnoov, ?_⟩
      cases rows with
      | nil => exact absurd rfl hhdr
      | cons hd t =>
        have hfa : fetch_rows (append_reservation (hd :: t) ud seat day st en uid ts) =
            fetch_rows (hd :: t) ++
              [((hd :: t).length + 1, reservation_row ud seat day st en uid ts)] := by
          unfold append_reservation
          rw [fetch_rows_append, pad9_reservation_row]
        intro p hp q hq hne h1 h2
        rw [hfa] at hp hq
        rcases List.mem_append.mp hp with hpold | hpnew
        · rcases List.mem_append.mp hq with hqold | hqnew
          · exact hinv p hpold q hqold hne h1 h2
          · -- q is the appended row
            have hqeq : q = ((hd :: t).length + 1,
                reservation_row ud seat day st en uid ts) := by
              simpa using hqnew
            intro hov
            have h1' : cell p.2 1 = seat := by
              rw [hqeq] at h1; exact h1
            have h2' : cell p.2 2 = day := by
              rw [hqeq] at h2; exact h2
            have hov' : has_overlap st en (cell p.2 3) (cell p.2 4) = some true := by
              rw [has_overlap_comm]
              rw [hqeq] at hov
              exact hov
            exact hnoov p hpold h1' h2' hov'
        · have hpeq : p = ((hd :: t).length + 1,
              reservation_row ud seat day st en uid ts) := by
            simpa using hpnew
          rcases List.mem_append.mp hq with hqold | hqnew
          · intro hov
            have h1' : cell q.2 1 = seat := by
              rw [hpeq] at h1; exact h1.symm
            have h2' : cell q.2 2 = day := by
              rw [hpeq] at h2; exact h2.symm
            have hov' : has_overlap st en (cell q.2 3) (cell q.2 4) = some true := by
              rw [hpeq] at hov
              exact hov
            exact hnoov q hqold h1' h2' hov'
          · have hqeq : q = ((hd :: t).length + 1,
                reservation_row ud seat day st en uid ts) := by
              simpa using hqnew
            rw [hpeq, hqeq] at hne
            exact absurd rfl hne

/-- Witness for C1: booking the abutting 14:00-15:00 slot on the sheet
already holding 13:00-14:00 for the same seat succeeds and preserves the
invariant. -/
theorem reserve_preserves_no_double_booking_witness :
    ((reserve cancel_rows "Bob" "Room A" "2025/11/01" "14:00" "15:00" "2" "t2").1 =
        ReserveResult.slotTaken →
      (reserve cancel_rows "Bob" "Room A" "2025/11/01" "14:00" "15:00" "2" "t2").2 =
        cancel_rows)
    ∧ ((reserve cancel_rows "Bob" "Room A" "2025/11/01" "14:00" "15:00" "2" "t2").1 =
        ReserveResult.fetchError →
      (reserve cancel_rows "Bob" "Room A" "2025/11/01" "14:00" "15:00" "2" "t2").2 =
        cancel_rows)
    ∧ ((reserve cancel_rows "Bob" "Room A" "2025/11/01" "14:00" "15:00" "2" "t2").1 =
        ReserveResult.reserved →
      ∀ q ∈ fetch_rows cancel_rows, cell q.2 1 = "Room A" →
        cell q.2 2 = "2025/11/01" →
        has_overlap "14:00" "15:00" (cell q.2 3) (cell q.2 4) ≠ some true)
    ∧ NoDoubleBooking
        (reserve cancel_rows "Bob" "Room A" "2025/11/01" "14:00" "15:00" "2" "t2").2 :=
  reserve_preserves_no_double_booking cancel_rows "Bob" "Room A" "2025/11/01"
    "14:00" "15:00" "2" "t2" (by decide) (by decide)
    (by unfold NoDoubleBooking; decide)

end Cafebook
